import Mathlib

/-!
Verification of the Shapiro schema server against its design specification.

The Python sources (shapiro_server.py, shapiro_model.py, shapiro_util.py) are
shallowly embedded below.  Python strings are modelled as lists of characters
(`PyStr`), so that Python's slicing, `rfind`, `split`, `strip`, `lower` and
substring tests can be reproduced exactly.  Python `float` q-values are
modelled as rationals (`ℚ`): the accept headers handled here carry plain
decimal q-values, on which `float` arithmetic and `str(float)` bucket keys are
exact and injective, so `ℚ` keyed buckets coincide with the source's
`str(q)`-keyed dictionary.  Python exceptions (ValueError from `float`/`int`,
IndexError from `[1]`, the server's own exception classes) are modelled with
`Option`/`Except`.  File systems, RDF parsers and the external renderers are
passed in as explicit function parameters.
-/

namespace Shapiro

/-- Python strings as explicit character lists. -/
abbrev PyStr := List Char

/-- Coerce a Lean string literal to the `PyStr` representation. -/
def pys (s : String) : PyStr := s.data

/-- Python's whitespace set used by `str.strip()` (ASCII part). -/
def isPySpace (c : Char) : Bool :=
  c = ' ' || c = '\t' || c = '\n' || c = '\x0d' || c = '\x0b' || c = '\x0c'

/-- Python `str.lstrip()` for whitespace. -/
def pyLstrip (s : PyStr) : PyStr := s.dropWhile isPySpace

/-- Python `str.strip()` for whitespace. -/
def pyStrip (s : PyStr) : PyStr := ((pyLstrip s).reverse.dropWhile isPySpace).reverse

/-- Python `str.split(sep)` for a single-character separator:
always returns at least one piece, empty pieces included. -/
def pySplit (sep : Char) : PyStr → List PyStr
  | [] => [[]]
  | c :: rest =>
    match pySplit sep rest with
    | [] => [[c]]
    | h :: t => if c = sep then [] :: h :: t else (c :: h) :: t

/-- Python `str.lower()` (ASCII case folding, which covers all strings
handled by the server's comparisons). -/
def pyLower (s : PyStr) : PyStr := s.map Char.toLower

/-- Python `str.startswith(needle)`. -/
def pyStartsWith (needle hay : PyStr) : Bool :=
  match needle, hay with
  | [], _ => true
  | _ :: _, [] => false
  | n :: ns, h :: hs => n = h && pyStartsWith ns hs

/-- Python `str.endswith(needle)`. -/
def pyEndsWith (needle hay : PyStr) : Bool :=
  pyStartsWith needle.reverse hay.reverse

/-- Python `hay.find(needle) > -1`, i.e. substring containment
(`needle in hay`). -/
def pyContains (hay needle : PyStr) : Bool :=
  match hay with
  | [] => pyStartsWith needle []
  | _ :: rest => pyStartsWith needle hay || pyContains rest needle

/-- Index of the last occurrence of `c` (Python `str.rfind` for a
single-character needle, with `none` for Python's `-1`). -/
def pyRfind (c : Char) : PyStr → Option Nat
  | [] => none
  | x :: xs =>
    match pyRfind c xs with
    | some i => some (i + 1)
    | none => if x = c then some 0 else none

/-- Parse an optional decimal fraction tail (digits only) as numerator and
power-of-ten denominator. -/
def pyDigitsVal : PyStr → Option Nat
  | [] => none
  | l => if l.all (fun c => c.isDigit) then
      some (l.foldl (fun acc c => acc * 10 + (c.toNat - 48)) 0)
    else none

/-- Python `float(s)` restricted to plain decimal literals
(optional sign, digits, optional fraction); scientific notation,
`inf`/`nan` and other exotic spellings are out of the server's input space
and map to `none` (ValueError). -/
def pyFloat : PyStr → Option ℚ := fun s =>
  let t := pyStrip s
  let core := match t with
    | '+' :: r => some (r, (1 : ℚ))
    | '-' :: r => some (r, (-1 : ℚ))
    | r => some (r, (1 : ℚ))
  match core with
  | none => none
  | some (body, sign) =>
    match pySplit '.' body with
    | [ip] =>
      match pyDigitsVal ip with
      | some n => some (sign * n)
      | none => none
    | [ip, fp] =>
      if ip = [] && fp = [] then none
      else
        match (if ip = [] then some 0 else pyDigitsVal ip),
              (if fp = [] then some 0 else pyDigitsVal fp) with
        | some n, some f => some (sign * (n + (f : ℚ) / ((10 : ℚ) ^ fp.length)))
        | _, _ => none
    | _ => none

/-- Python `int(s)` restricted to plain decimal integer literals. -/
def pyInt : PyStr → Option Int := fun s =>
  let t := pyStrip s
  match t with
  | '+' :: r => (pyDigitsVal r).map (fun n => (n : Int))
  | '-' :: r => (pyDigitsVal r).map (fun n => -(n : Int))
  | r => (pyDigitsVal r).map (fun n => (n : Int))

/-- Lexicographic comparison of character lists by code point:
Python's `<=` on `str`, used to model `list.sort(key=...)`. -/
def pyStrLe : PyStr → PyStr → Bool
  | [], _ => true
  | _ :: _, [] => false
  | a :: as', b :: bs => if a = b then pyStrLe as' bs else decide (a.toNat < b.toNat)

/-! ## Path Mapper (shapiro_server.py, map_filename) -/

/-- `SUFFIX_JSONLD` from shapiro_server.py. -/
def SUFFIX_JSONLD : PyStr := pys ".jsonld"

/-- `SUFFIX_TTL` from shapiro_server.py. -/
def SUFFIX_TTL : PyStr := pys ".ttl"

/-- `SUPPORTED_SUFFIXES` from shapiro_server.py. -/
def SUPPORTED_SUFFIXES : List PyStr := [SUFFIX_JSONLD, SUFFIX_TTL]

/-- The candidates collected by one of `map_filename`'s two suffix loops:
`base + s` for each supported suffix `s` naming an existing file.
`isFile` is the file-system oracle (`os.path.isfile`). -/
def suffixCandidates (isFile : PyStr → Bool) (base : PyStr) : List PyStr :=
  (if isFile (base ++ SUFFIX_JSONLD) then [base ++ SUFFIX_JSONLD] else []) ++
    (if isFile (base ++ SUFFIX_TTL) then [base ++ SUFFIX_TTL] else [])

/-- Python `full_path[0 : full_path.rfind("/")]`: the path with its last
segment stripped; when no slash exists Python's `rfind` yields `-1` and the
slice `[0:-1]` drops the final character. -/
def prunedPath (full : PyStr) : PyStr :=
  match pyRfind '/' full with
  | some i => full.take i
  | none => full.take (full.length - 1)

/-- The full candidate list built by `map_filename`: candidates from the
path itself followed by candidates from the pruned path (the source
collects both unconditionally). -/
def allCandidates (isFile : PyStr → Bool) (contentDir path : PyStr) : List PyStr :=
  suffixCandidates isFile (contentDir ++ path) ++
    suffixCandidates isFile (prunedPath (contentDir ++ path))

/-- `map_filename` from shapiro_server.py: returns the sole candidate, and
`None` when there are zero or several candidates. -/
def map_filename (isFile : PyStr → Bool) (contentDir path : PyStr) : Option PyStr :=
  match allCandidates isFile contentDir path with
  | [f] => some f
  | _ => none

/-! ## Content Negotiator (shapiro_server.py, get_ranked_mime_types /
find_preferred / negotiate) -/

/-- `MIME_HTML` from shapiro_server.py. -/
def MIME_HTML : PyStr := pys "text/html"

/-- `MIME_JSONLD` from shapiro_server.py. -/
def MIME_JSONLD : PyStr := pys "application/ld+json"

/-- `MIME_TTL` from shapiro_server.py. -/
def MIME_TTL : PyStr := pys "text/turtle"

/-- `MIME_JSONSCHEMA` from shapiro_server.py. -/
def MIME_JSONSCHEMA : PyStr := pys "application/schema+json"

/-- `MIME_JSON` from shapiro_server.py. -/
def MIME_JSON : PyStr := pys "application/json"

/-- `SUPPORTED_MIME_TYPES` from shapiro_server.py (already lower case). -/
def SUPPORTED_MIME_TYPES : List PyStr :=
  [MIME_JSONLD, MIME_TTL, MIME_HTML, MIME_JSONSCHEMA]

/-- The mutable locals of `get_ranked_mime_types`: the `weights` list and the
`q_buckets` dictionary.  The dictionary is keyed by `str(q)` in the source;
since `str` is injective on floats, keying the association list by the
q-value itself is equivalent. -/
structure NegotState where
  weights : List ℚ
  buckets : List (ℚ × List PyStr)

/-- `q_buckets[q].append(m)` preceded by `q_buckets[q] = []` when the key is
new (Python dictionaries preserve insertion order). -/
def bucketAppend : List (ℚ × List PyStr) → ℚ → PyStr → List (ℚ × List PyStr)
  | [], q, m => [(q, [m])]
  | (k, v) :: rest, q, m =>
    if k = q then (k, v ++ [m]) :: rest else (k, v) :: bucketAppend rest q m

/-- Dictionary lookup `q_buckets[q]` (with `[]` for the unreachable
missing-key case: a weight is recorded exactly when its bucket is created). -/
def bucketGet : List (ℚ × List PyStr) → ℚ → List PyStr
  | [], _ => []
  | (k, v) :: rest, q => if k = q then v else bucketGet rest q

/-- The common update: record the weight if it is new and append the media
type to its bucket. -/
def qUpdate (st : NegotState) (q : ℚ) (m : PyStr) : NegotState :=
  ⟨if q ∈ st.weights then st.weights else st.weights ++ [q],
    bucketAppend st.buckets q m⟩

/-- One iteration of the inner `for k in mime_type.split(";")` loop: a part
with key `q` books the entry's media type under the parsed weight
(IndexError and ValueError modelled as `none`); other parts are skipped. -/
def procStep (mime0 : PyStr) (st : NegotState) (k : PyStr) : Option NegotState :=
  if pyLower ((pySplit '=' k).headD []) = pys "q" then
    match (pySplit '=' k).get? 1 with
    | none => none
    | some qs =>
      match pyFloat qs with
      | none => none
      | some q => some (qUpdate st q mime0)
  else some st

/-- One iteration of the `for mime_type in mime_types` loop of
`get_ranked_mime_types`: a bare entry is booked under q = 1.0, an entry with
parameters contributes one booking per `q=` parameter (and nothing
otherwise); a malformed q-value raises (`none`). -/
def processEntry (st : NegotState) (raw : PyStr) : Option NegotState :=
  let mime := pyStrip raw
  let parts := pySplit ';' mime
  if parts.headD [] = mime then some (qUpdate st 1 mime)
  else parts.foldlM (procStep (parts.headD [])) st

/-- `get_ranked_mime_types` from shapiro_server.py: `None` headers become
the empty string; the header is split on commas, each entry is booked into
q-buckets, and the buckets are emitted in order of descending weight.
The outer `none` models an uncaught `float` ValueError. -/
def get_ranked_mime_types (accept : Option PyStr) : Option (List PyStr) :=
  match (pySplit ',' (accept.getD [])).foldlM processEntry ⟨[], []⟩ with
  | none => none
  | some st =>
    some ((st.weights.insertionSort (· ≥ ·)).foldl
      (fun acc w => acc ++ bucketGet st.buckets w) [])

/-- `find_preferred_mime` from shapiro_server.py: first ranked media type
whose lower-case form is supported. -/
def find_preferred_mime (accept : Option PyStr) : Option (Option PyStr) :=
  (get_ranked_mime_types accept).map
    (fun r => r.find? (fun m => pyLower m ∈ SUPPORTED_MIME_TYPES))

/-- `negotiate` from shapiro_server.py: the preferred supported media type,
or the configured default (`MIME_DEFAULT`, passed as a parameter since it is
a mutable global). -/
def negotiate (mimeDefault : PyStr) (accept : Option PyStr) : Option PyStr :=
  (find_preferred_mime accept).map (fun pref => pref.getD mimeDefault)

/-- The (media type, q-value) pair one inner-loop iteration books. -/
def pairStep (mime0 : PyStr) (acc : List (PyStr × ℚ)) (k : PyStr) :
    Option (List (PyStr × ℚ)) :=
  if pyLower ((pySplit '=' k).headD []) = pys "q" then
    match (pySplit '=' k).get? 1 with
    | none => none
    | some qs =>
      match pyFloat qs with
      | none => none
      | some q => some (acc ++ [(mime0, q)])
  else some acc

/-- The (media type, q-value) pairs one header entry books, in booking
order: the per-entry reading of the same loop that `processEntry` embeds,
used to state ranking properties. -/
def entryPairs (raw : PyStr) : Option (List (PyStr × ℚ)) :=
  let mime := pyStrip raw
  let parts := pySplit ';' mime
  if parts.headD [] = mime then some [(mime, 1)]
  else parts.foldlM (pairStep (parts.headD [])) []

/-- All (media type, q-value) pairs of an accept header, in booking order. -/
def parsePairs (accept : Option PyStr) : Option (List (PyStr × ℚ)) :=
  (pySplit ',' (accept.getD [])).foldlM
    (fun acc e => (entryPairs e).map (fun ps => acc ++ ps)) []

/-- The loop invariant of `get_ranked_mime_types`: the recorded weights are
the distinct q-values booked so far and each bucket holds, in booking
order, the media types booked under its weight. -/
def NegotInv (st : NegotState) (pairs : List (PyStr × ℚ)) : Prop :=
  st.weights.Nodup ∧
    (∀ q, q ∈ st.weights ↔ ∃ m, (m, q) ∈ pairs) ∧
      ∀ q, bucketGet st.buckets q =
        (pairs.filter (fun pr => pr.2 = q)).map Prod.fst

/-- Relate two optional results: both fail together or both succeed in
relation. -/
def OptRel (R : α → β → Prop) : Option α → Option β → Prop
  | some a, some b => R a b
  | none, none => True
  | _, _ => False

/-! ## Graph Model Accessor (shapiro_model.py)

An RDF graph is a list of (subject, predicate, object) triples over IRI /
literal strings.  SPARQL `SELECT DISTINCT` results are modelled as
first-occurrence deduplication in graph order; every accessor then sorts its
results by display label exactly as the source does
(`props.sort(key=lambda p: p.label)`).  The label of an element is derived
in the source from rdfs:label/dct:title queries with an IRI-pruning
fallback; it enters the accessors only as a sort key, so it is passed in as
an explicit `labelOf` parameter. -/

/-- RDF triples: subject, predicate, object. -/
abbrev Triple := PyStr × PyStr × PyStr

/-- A parsed RDF graph. -/
abbrev RdfGraph := List Triple

/-- IRI of `sh:property`. -/
def SH_PROPERTY_IRI : PyStr := pys "http://www.w3.org/ns/shacl#property"

/-- IRI of `sh:targetClass`. -/
def SH_TARGETCLASS_IRI : PyStr := pys "http://www.w3.org/ns/shacl#targetClass"

/-- IRI of `rdfs:subClassOf`. -/
def RDFS_SUBCLASSOF_IRI : PyStr := pys "http://www.w3.org/2000/01/rdf-schema#subClassOf"

/-- The SHACL namespace, used by the `STRSTARTS` filter of the constraints
query. -/
def SHACL_NS : PyStr := pys "http://www.w3.org/ns/shacl#"

/-- First-occurrence deduplication (SPARQL `SELECT DISTINCT`). -/
def dedupFirstAux [DecidableEq α] (seen : List α) : List α → List α
  | [] => []
  | x :: xs =>
    if x ∈ seen then dedupFirstAux seen xs
    else x :: dedupFirstAux (x :: seen) xs

/-- First-occurrence deduplication of a result list. -/
def dedupFirst [DecidableEq α] (l : List α) : List α := dedupFirstAux [] l

/-- Distinct objects `o` of triples `(s, p, o)` in graph order. -/
def queryObjects (g : RdfGraph) (s p : PyStr) : List PyStr :=
  dedupFirst (g.filterMap (fun t => if t.1 = s && t.2.1 = p then some t.2.2 else none))

/-- Distinct subjects `s` of triples `(s, p, o)` in graph order. -/
def querySubjects (g : RdfGraph) (p o : PyStr) : List PyStr :=
  dedupFirst (g.filterMap (fun t => if t.2.1 = p && t.2.2 = o then some t.1 else none))

/-- `result.sort(key=lambda x: x.label)`: stable sort by display label. -/
def sortByLabel (labelOf : PyStr → PyStr) (l : List PyStr) : List PyStr :=
  l.insertionSort (fun a b => pyStrLe (labelOf a) (labelOf b) = true)

/-- `NodeShape.get_shacl_properties`: distinct objects of `sh:property`,
sorted by label. -/
def nodeShape_shacl_properties (g : RdfGraph) (labelOf : PyStr → PyStr)
    (shape : PyStr) : List PyStr :=
  sortByLabel labelOf (queryObjects g shape SH_PROPERTY_IRI)

/-- `NodeShape.get_classes`: distinct targets of `sh:targetClass`, sorted by
label. -/
def nodeShape_classes (g : RdfGraph) (labelOf : PyStr → PyStr)
    (shape : PyStr) : List PyStr :=
  sortByLabel labelOf (queryObjects g shape SH_TARGETCLASS_IRI)

/-- `RdfClass.get_nodeshapes`: distinct shapes with `sh:targetClass` this
class, sorted by label. -/
def class_nodeshapes (g : RdfGraph) (labelOf : PyStr → PyStr)
    (c : PyStr) : List PyStr :=
  sortByLabel labelOf (querySubjects g SH_TARGETCLASS_IRI c)

/-- One step of `rdfs:subClassOf`. -/
def superStep (g : RdfGraph) (c : PyStr) : List PyStr :=
  queryObjects g c RDFS_SUBCLASSOF_IRI

/-- Fuel-bounded reachability along `rdfs:subClassOf`, realizing the SPARQL
property path `rdfs:subClassOf+` of `TRANSITIVE_SUPERCLASSES_QUERY`; the
fuel `g.length + 1` exceeds the number of distinct classes, so the
computation saturates. -/
def closureAux (g : RdfGraph) : Nat → List PyStr → List PyStr → List PyStr
  | 0, acc, _ => acc
  | n + 1, acc, frontier =>
    let next := dedupFirst
      ((frontier.flatMap (fun c => superStep g c)).filter (fun x => ¬ x ∈ acc))
    match next with
    | [] => acc
    | _ => closureAux g n (acc ++ next) next

/-- `RdfClass.get_superclasses`: one-hop or transitive superclasses, sorted
by label. -/
def class_superclasses (g : RdfGraph) (labelOf : PyStr → PyStr)
    (c : PyStr) (transitive : Bool) : List PyStr :=
  if transitive then sortByLabel labelOf (closureAux g (g.length + 1) [] [c])
  else sortByLabel labelOf (superStep g c)

/-- `NodeShape.get_inherited_shacl_properties`: union the transitive
superclasses of every targeted class (a Python set, modelled as
insertion-order deduplication), then collect the property shapes of every
NodeShape targeting any of those superclasses. -/
def get_inherited_shacl_properties (g : RdfGraph) (labelOf : PyStr → PyStr)
    (shape : PyStr) : List PyStr :=
  let clazzes := dedupFirst
    ((nodeShape_classes g labelOf shape).flatMap
      (fun c => class_superclasses g labelOf c true))
  clazzes.flatMap
    (fun c => (class_nodeshapes g labelOf c).flatMap
      (fun s => nodeShape_shacl_properties g labelOf s))

/-- `ShaclProperty.get_constraints`: distinct (constraint IRI, value) pairs
whose predicate starts with the SHACL namespace, sorted by constraint IRI.
The source additionally expands the value of an `sh:in` constraint into the
RDF list's items; that expansion changes only the value of `sh:in` entries
and is not consulted by any accessor verified here. -/
def get_constraints (g : RdfGraph) (p : PyStr) : List (PyStr × PyStr) :=
  (dedupFirst (g.filterMap
    (fun t => if t.1 = p && pyStartsWith SHACL_NS t.2.1
      then some (t.2.1, t.2.2) else none))).insertionSort
    (fun a b => pyStrLe a.1 b.1 = true)

/-- The constraints `ShaclProperty.is_required` filters for: constraint IRI
ending (case-insensitively) in "mincount". -/
def minCountConstraints (g : RdfGraph) (p : PyStr) : List (PyStr × PyStr) :=
  (get_constraints g p).filter (fun c => pyEndsWith (pys "mincount") (pyLower c.1))

/-- The constraints `ShaclProperty.is_array` filters for: constraint IRI
ending (case-insensitively) in "maxcount". -/
def maxCountConstraints (g : RdfGraph) (p : PyStr) : List (PyStr × PyStr) :=
  (get_constraints g p).filter (fun c => pyEndsWith (pys "maxcount") (pyLower c.1))

/-- `ShaclProperty.is_required`: exactly one mincount-suffixed constraint
whose integer value is at least 1; `none` models `int()` raising. -/
def is_required (g : RdfGraph) (p : PyStr) : Option Bool :=
  match minCountConstraints g p with
  | [c] => (pyInt c.2).map (fun n => decide (1 ≤ n))
  | _ => some false

/-- `ShaclProperty.is_array`: exactly one maxcount-suffixed constraint whose
integer value exceeds 1; `none` models `int()` raising. -/
def is_array (g : RdfGraph) (p : PyStr) : Option Bool :=
  match maxCountConstraints g p with
  | [c] => (pyInt c.2).map (fun n => decide (1 < n))
  | _ => some false

/-- `ShaclProperty.get_target_property`: the value of the first constraint
whose IRI ends in "path" (`none` models the IndexError when there is no
such constraint). -/
def get_target_property_iri (g : RdfGraph) (p : PyStr) : Option PyStr :=
  (((get_constraints g p).filter
    (fun c => pyEndsWith (pys "path") c.1)).head?).map (fun c => c.2)

/-! ## JSON-Schema renderer conflict detection (C5) -/

/-- First element of a list that also occurs later in the list. -/
def firstDup [DecidableEq α] : List α → Option α
  | [] => none
  | x :: xs => if x ∈ xs then some x else firstDup xs

/-- The ConflictingPropertyException message; it names the offending
property IRI. -/
def conflictMsg (p : PyStr) : PyStr :=
  pys "ConflictingPropertyException: the effective property set contains two definitions for the same underlying property " ++ p

/-- Modelled from the spec: `JsonSchemaRenderer.render_nodeshape` (the code
that raises `ConflictingPropertyException`) is absent from this snapshot of
shapiro_render.py although shapiro_server.py imports and calls it.  Per
spec sections 4.3, 4.4 and 7: assemble the effective property set of the
target NodeShape (own property shapes plus inherited ones, via the
shapiro_model.py accessors embedded above), resolve each property shape to
its target property IRI, and if two property shapes resolve to the same
target property IRI raise `ConflictingPropertyException` naming the
offending property; otherwise emit a single JSON-Schema document
(abstracted by `okRender`). -/
def effectiveTargets (g : RdfGraph) (labelOf : PyStr → PyStr)
    (shape : PyStr) : List PyStr :=
  (nodeShape_shacl_properties g labelOf shape ++
    get_inherited_shacl_properties g labelOf shape).filterMap
    (fun p => get_target_property_iri g p)

/-- Modelled from the spec: the conflict check of
`JsonSchemaRenderer.render_nodeshape` over the effective target list
(see `effectiveTargets` above for what is missing from the source). -/
def render_nodeshape_jsonschema (g : RdfGraph) (labelOf : PyStr → PyStr)
    (okRender : List PyStr → PyStr) (shape : PyStr) : Except PyStr PyStr :=
  match firstDup (effectiveTargets g labelOf shape) with
  | some q => Except.error (conflictMsg q)
  | none => Except.ok (okRender (effectiveTargets g labelOf shape))

/-! ## Content Resolver (shapiro_server.py, convert / resolve / get_schema) -/

/-- Exceptions escaping `convert`: `BadSchemaException` for quarantined
files and `ConflictingPropertyException` (with its message) from the
JSON-Schema renderer. -/
inductive ConvertErr where
  | badSchema : ConvertErr
  | conflict : PyStr → ConvertErr
deriving DecidableEq

/-- The globals and collaborator calls `convert` depends on: the quarantine
map keys and the four renderer/serializer calls (treated as external
capabilities per the spec's scope). -/
structure ConvertEnv where
  badKeys : List PyStr
  htmlModel : PyStr → PyStr
  htmlElement : PyStr → PyStr
  toJsonld : PyStr → PyStr
  toTtl : PyStr → PyStr
  jsonschema : PyStr → Except PyStr PyStr

/-- `convert` from shapiro_server.py: raises for quarantined files,
dispatches on the negotiated media type, and returns `None` for any media
type outside the five it handles. -/
def convert (env : ConvertEnv) (path filename content : PyStr)
    (mime : PyStr) : Except ConvertErr (Option (PyStr × PyStr)) :=
  if filename ∈ env.badKeys then Except.error ConvertErr.badSchema
  else if mime = MIME_HTML then
    if pyEndsWith path
        (filename.take ((pyRfind '.' filename).getD (filename.length - 1))) then
      Except.ok (some (env.htmlModel path, mime))
    else Except.ok (some (env.htmlElement path, mime))
  else if mime = MIME_JSONLD then
    if pyEndsWith SUFFIX_JSONLD filename then Except.ok (some (content, mime))
    else if pyEndsWith SUFFIX_TTL filename then
      Except.ok (some (env.toJsonld filename, mime))
    else Except.ok none
  else if mime = MIME_TTL then
    if pyEndsWith SUFFIX_JSONLD filename then
      Except.ok (some (env.toTtl filename, mime))
    else if pyEndsWith SUFFIX_TTL filename then Except.ok (some (content, mime))
    else Except.ok none
  else if mime = MIME_JSONSCHEMA ∨ mime = MIME_JSON then
    match env.jsonschema path with
    | Except.error m => Except.error (ConvertErr.conflict m)
    | Except.ok c => Except.ok (some (c, mime))
  else Except.ok none

/-- `resolve` from shapiro_server.py: negotiate the media type, map the path
to a file, read it (`fileContent`) and convert.  The outer `none` models an
uncaught exception from negotiation. -/
def resolve (env : ConvertEnv) (mimeDefault : PyStr) (isFile : PyStr → Bool)
    (contentDir : PyStr) (fileContent : PyStr → PyStr)
    (accept : Option PyStr) (path : PyStr) :
    Option (Except ConvertErr (Option (PyStr × PyStr))) :=
  (negotiate mimeDefault accept).map
    (fun mime =>
      match map_filename isFile contentDir path with
      | none => Except.ok none
      | some filename => convert env path filename (fileContent filename) mime)

/-- The response `get_schema` produces, by outcome class. -/
inductive GetSchemaResult where
  | redirect : GetSchemaResult
  | ok : PyStr → PyStr → GetSchemaResult
  | notFound : PyStr → GetSchemaResult
  | badSchema : GetSchemaResult
  | conflict : PyStr → GetSchemaResult
  | serverError : GetSchemaResult
deriving DecidableEq

/-- HTTP status of each `get_schema` outcome, as set by the source's
exception handlers. -/
def statusCode : GetSchemaResult → Nat
  | GetSchemaResult.redirect => 307
  | GetSchemaResult.ok _ _ => 200
  | GetSchemaResult.notFound _ => 404
  | GetSchemaResult.badSchema => 406
  | GetSchemaResult.conflict _ => 422
  | GetSchemaResult.serverError => 500

/-- `get_schema` from shapiro_server.py: empty paths redirect to the
welcome page, a trailing slash is stripped, and the `resolve` outcome is
mapped to a response: `None` becomes a 404 NotFoundException response,
`BadSchemaException` a 406, `ConflictingPropertyException` a 422 carrying
the exception message. -/
def get_schema (env : ConvertEnv) (mimeDefault : PyStr) (isFile : PyStr → Bool)
    (contentDir : PyStr) (fileContent : PyStr → PyStr)
    (schemaPath : PyStr) (accept : Option PyStr) : GetSchemaResult :=
  if schemaPath = [] then GetSchemaResult.redirect
  else
    let sp := if pyEndsWith (pys "/") schemaPath
      then schemaPath.take (schemaPath.length - 1) else schemaPath
    match resolve env mimeDefault isFile contentDir fileContent accept sp with
    | none => GetSchemaResult.serverError
    | some (Except.ok none) =>
      GetSchemaResult.notFound (pys "Could not find schema " ++ sp)
    | some (Except.ok (some (c, m))) => GetSchemaResult.ok c m
    | some (Except.error ConvertErr.badSchema) => GetSchemaResult.badSchema
    | some (Except.error (ConvertErr.conflict m)) => GetSchemaResult.conflict m

/-! ## Validation Engine, inference mode (shapiro_server.py,
validate_infer_model) -/

/-- One `if iri.lower().startswith("http") and iri not in schema_graphs:
schema_graphs.append(iri)` step. -/
def addIri (acc : List PyStr) (iri : PyStr) : List PyStr :=
  if pyStartsWith (pys "http") (pyLower iri) = true ∧ iri ∉ acc
  then acc ++ [iri] else acc

/-- The `schema_graphs` list after the collection loop of
`validate_infer_model`: subject, predicate and object of every triple, in
graph order, kept when they start with http(s) and are new. -/
def collectSchemaIris (g : RdfGraph) : List PyStr :=
  g.foldl (fun acc t => addIri (addIri (addIri acc t.1) t.2.1) t.2.2) []

/-- The ignore-list pass of `validate_infer_model`: for each configured
namespace, remove every collected IRI containing it as a substring. -/
def applyIgnoreList (ignore : List PyStr) (iris : List PyStr) : List PyStr :=
  ignore.foldl (fun cur i => cur.filter (fun s => !(pyContains s i))) iris

/-- The inferred schema list of `validate_infer_model`. -/
def validate_infer_schemas (ignore : List PyStr) (g : RdfGraph) : List PyStr :=
  applyIgnoreList ignore (collectSchemaIris g)

/-- The single schema path `validate_infer_model` actually dispatches on:
after an unused `results = {}` and a discarded schema-graph accumulation
loop, the function returns `await validate(s, request)` where `s` is the
leaked loop variable, i.e. the last inferred schema IRI (`none` when the
inferred list is empty, in which case the dispatch reads an undefined or
stale binding). -/
def validate_infer_target (ignore : List PyStr) (g : RdfGraph) : Option PyStr :=
  (validate_infer_schemas ignore g).getLast?

/-- The default `--ignore_namespaces` configuration. -/
def IGNORE_DEFAULTS : List PyStr :=
  [pys "schema.org", pys "w3.org", pys "example.org"]

/-! ## Bad-Schema Housekeeping (shapiro_server.py,
BadSchemaHousekeeping.perform_housekeeping_on) -/

/-- `get_suffix` from shapiro_server.py: `full_name[full_name.rfind("."):]`
(Python's `rfind` yields `-1` without a dot, making the slice the final
character). -/
def get_suffix (fullName : PyStr) : PyStr :=
  fullName.drop ((pyRfind '.' fullName).getD (fullName.length - 1))

/-- `get_schema_path` from shapiro_server.py:
`full_name[len(CONTENT_DIR) : len(full_name) - len(get_suffix(full_name))]`. -/
def get_schema_path (contentDir fullName : PyStr) : PyStr :=
  (fullName.drop contentDir.length).take
    (fullName.length - (get_suffix fullName).length - contentDir.length)

/-- The base-URL-qualified schema path the provenance check searches for
(the leading slash of the schema path is skipped). -/
def provenancePath (baseUrl contentDir fullName : PyStr) : PyStr :=
  let sp := get_schema_path contentDir fullName
  if pyStartsWith (pys "/") sp then baseUrl ++ sp.drop 1 else baseUrl ++ sp

/-- The provenance check: some triple mentions the qualified path
(case-insensitive substring test on subject, predicate or object). -/
def schemaRefersBack (path : PyStr) (triples : List Triple) : Bool :=
  triples.any (fun t =>
    pyContains (pyLower t.1) (pyLower path) ||
      pyContains (pyLower t.2.1) (pyLower path) ||
        pyContains (pyLower t.2.2) (pyLower path))

/-- `full_name in BAD_SCHEMAS.keys()`. -/
def dictHasKey (d : List (PyStr × PyStr)) (k : PyStr) : Bool :=
  d.any (fun e => e.1 = k)

/-- `del BAD_SCHEMAS[full_name]`. -/
def dictDel (d : List (PyStr × PyStr)) (k : PyStr) : List (PyStr × PyStr) :=
  d.filter (fun e => decide (e.1 ≠ k))

/-- The paraphrased provenance-failure reason recorded in the quarantine
map (the exact wording is not load-bearing). -/
def provenanceMsg (path : PyStr) : PyStr :=
  pys "Bad Schema Housekeeping: schema has no origin " ++ path ++
    pys " on this server"

/-- One iteration of `BadSchemaHousekeeping.perform_housekeeping_on`'s
loop over the modified schema files: parse the file (`parse`, with `none`
for a parse error and `parseErr` supplying the library's exception text),
run the provenance check, and update the quarantine map: a failing file is
added if absent, a passing file is removed if present. -/
def checkSchemaFile (parse : PyStr → Option (List Triple))
    (parseErr : PyStr → PyStr) (baseUrl contentDir : PyStr)
    (bad : List (PyStr × PyStr)) (fullName : PyStr) : List (PyStr × PyStr) :=
  let path := provenancePath baseUrl contentDir fullName
  match parse fullName with
  | none =>
    if dictHasKey bad fullName then bad
    else bad ++ [(fullName, parseErr fullName)]
  | some triples =>
    if schemaRefersBack path triples then
      if dictHasKey bad fullName then dictDel bad fullName else bad
    else
      if dictHasKey bad fullName then bad
      else bad ++ [(fullName, provenanceMsg path)]

/-- `BadSchemaHousekeeping.perform_housekeeping_on`: fold the per-file check
over the list of modified schema files, threading the shared
`BAD_SCHEMAS` map. -/
def perform_housekeeping_on (parse : PyStr → Option (List Triple))
    (parseErr : PyStr → PyStr) (baseUrl contentDir : PyStr)
    (schemas : List PyStr) (bad : List (PyStr × PyStr)) :
    List (PyStr × PyStr) :=
  schemas.foldl (checkSchemaFile parse parseErr baseUrl contentDir) bad

/-- A schema file is bad when it fails to parse or fails the provenance
check. -/
def isBadSchema (parse : PyStr → Option (List Triple))
    (baseUrl contentDir : PyStr) (fullName : PyStr) : Bool :=
  match parse fullName with
  | none => true
  | some triples =>
    !(schemaRefersBack (provenancePath baseUrl contentDir fullName) triples)

/-! ## Knowledge-Graph Housekeeping (shapiro_server.py, EKGHouseKeeping) -/

/-- The graph values taken by the shared reference while the remaining
schemas are ingested in place, starting from `acc`. -/
def ekgStatesAux [DecidableEq α] (acc : Finset α) :
    List (Finset α) → List (Finset α)
  | [] => [acc]
  | s :: rest => acc :: ekgStatesAux (acc ∪ s) rest

/-- `EKGHouseKeeping.perform_housekeeping_on` viewed as the sequence of
graph values the shared `EKG` global passes through during a rebuild: the
old graph (before the rebuild starts), then the freshly assigned empty
`Graph()` (the source executes `EKG = Graph()` first), then the graph after
each successive in-place `EKG.parse` of a non-quarantined schema file
(given as triple sets).  A concurrently scheduled request handler (such as
POST /query/) reading `EKG` between two of these steps observes the
corresponding entry. -/
def ekgRebuildStates [DecidableEq α] (old : Finset α)
    (schemas : List (Finset α)) : List (Finset α) :=
  old :: ekgStatesAux ∅ schemas

/-- The fully rebuilt knowledge graph: union of all ingested schemas. -/
def ekgFinal [DecidableEq α] (schemas : List (Finset α)) : Finset α :=
  schemas.foldl (· ∪ ·) ∅

/-! ## Order instances and concrete fixtures used by the theorems -/

instance geRatIsTotal : IsTotal ℚ (· ≥ ·) := ⟨fun a b => le_total b a⟩

instance geRatIsTrans : IsTrans ℚ (· ≥ ·) := ⟨fun _ _ _ h1 h2 => le_trans h2 h1⟩

/-- IRI of `sh:minCount`. -/
def SH_MINCOUNT_IRI : PyStr := pys "http://www.w3.org/ns/shacl#minCount"

/-- IRI of `sh:maxCount`. -/
def SH_MAXCOUNT_IRI : PyStr := pys "http://www.w3.org/ns/shacl#maxCount"

/-- IRI of `sh:path`. -/
def SH_PATH_IRI : PyStr := pys "http://www.w3.org/ns/shacl#path"

/-- Class X of the `nodeshapes_inheritance` scenario. -/
def nsX : PyStr := pys "http://ex.org/X"

/-- Class Y (a subclass of X). -/
def nsY : PyStr := pys "http://ex.org/Y"

/-- NodeShape A, targeting X, declaring P1 to P3. -/
def shapeA : PyStr := pys "http://ex.org/AShape"

/-- NodeShape B, targeting Y, declaring P4. -/
def shapeB : PyStr := pys "http://ex.org/BShape"

/-- Property shape P1. -/
def prP1 : PyStr := pys "http://ex.org/P1"

/-- Property shape P2. -/
def prP2 : PyStr := pys "http://ex.org/P2"

/-- Property shape P3. -/
def prP3 : PyStr := pys "http://ex.org/P3"

/-- Property shape P4. -/
def prP4 : PyStr := pys "http://ex.org/P4"

/-- The `nodeshapes_inheritance` scenario of the claim: NodeShape A targets
class X declaring property shapes P1 to P3 (all with minCount 1), NodeShape
B targets class Y (a subclass of X) declaring P4 (with minCount 1). -/
def fixtureG4 : RdfGraph :=
  [(shapeA, SH_TARGETCLASS_IRI, nsX), (shapeA, SH_PROPERTY_IRI, prP1),
   (shapeA, SH_PROPERTY_IRI, prP2), (shapeA, SH_PROPERTY_IRI, prP3),
   (shapeB, SH_TARGETCLASS_IRI, nsY), (shapeB, SH_PROPERTY_IRI, prP4),
   (nsY, RDFS_SUBCLASSOF_IRI, nsX),
   (prP1, SH_MINCOUNT_IRI, pys "1"), (prP2, SH_MINCOUNT_IRI, pys "1"),
   (prP3, SH_MINCOUNT_IRI, pys "1"), (prP4, SH_MINCOUNT_IRI, pys "1"),
   (prP1, SH_PATH_IRI, pys "http://ex.org/p1"),
   (prP2, SH_PATH_IRI, pys "http://ex.org/p2"),
   (prP3, SH_PATH_IRI, pys "http://ex.org/p3"),
   (prP4, SH_PATH_IRI, pys "http://ex.org/p4")]

/-- Property shape Q1 of the conflict scenario. -/
def shapeQ1 : PyStr := pys "http://ex.org/Q1"

/-- Property shape Q2 of the conflict scenario. -/
def shapeQ2 : PyStr := pys "http://ex.org/Q2"

/-- The target property both Q1 and Q2 resolve to. -/
def targetP : PyStr := pys "http://ex.org/p"

/-- Conflict scenario: NodeShape B declares two property shapes whose
`sh:path` is the same target property. -/
def fixtureG5 : RdfGraph :=
  [(shapeB, SH_PROPERTY_IRI, shapeQ1), (shapeB, SH_PROPERTY_IRI, shapeQ2),
   (shapeQ1, SH_PATH_IRI, targetP), (shapeQ2, SH_PATH_IRI, targetP)]

/-- Data graph for inference validation: its triples reference two distinct
locally served schema IRIs (the object is a plain literal). -/
def fixtureD6 : RdfGraph :=
  [(pys "http://127.0.0.1:8000/s1#i", pys "http://127.0.0.1:8000/s2#p",
    pys "foo")]

/-- A shacl property carrying two distinct `sh:minCount` constraints. -/
def propP8 : PyStr := pys "http://ex.org/P8"

/-- Counterexample graph for `is_required`: the RDF graph assigns P8 two
different minCount values (RDF permits repeated predicates with different
objects). -/
def fixtureG8 : RdfGraph :=
  [(propP8, SH_MINCOUNT_IRI, pys "1"), (propP8, SH_MINCOUNT_IRI, pys "2"),
   (propP8, SH_PATH_IRI, pys "http://ex.org/p8")]

/-- A concrete parser oracle: one good schema referring back to the server,
one alien schema, one unparsable file. -/
def fixtureParse : PyStr → Option (List Triple) := fun f =>
  if f = pys "./good.ttl" then
    some [(pys "http://127.0.0.1:8000/good#x", pys "p", pys "o")]
  else if f = pys "./alien.ttl" then
    some [(pys "http://other.org/x", pys "p", pys "o")]
  else none

/-- An initial quarantine map for the housekeeping witness: the good schema
is still quarantined from an earlier failure. -/
def fixtureBad : List (PyStr × PyStr) :=
  [(pys "./good.ttl", pys "old reason")]

/-- The schema files one housekeeping pass processes. -/
def fixtureSchemas : List PyStr :=
  [pys "./good.ttl", pys "./alien.ttl", pys "./broken.ttl"]

/-- A convert environment with no quarantined files and trivial collaborator
renderers. -/
def fixtureEnv : ConvertEnv :=
  ⟨[], fun _ => pys "H", fun _ => pys "E", fun _ => pys "J", fun _ => pys "T",
    fun _ => Except.ok (pys "S")⟩

/-- A convert environment whose JSON-Schema renderer is the modelled
renderer run on the conflict scenario. -/
def fixtureEnvConflict : ConvertEnv :=
  ⟨[], fun _ => pys "H", fun _ => pys "E", fun _ => pys "J", fun _ => pys "T",
    fun _ => render_nodeshape_jsonschema fixtureG5 (fun l => l)
      (fun _ => pys "") shapeB⟩

/-- The file-system oracle for the resolver witnesses: exactly one schema
file `./x.ttl` exists. -/
def fixtureFs : PyStr → Bool := fun l => decide (l = pys "./x.ttl")

/-! ## Helper lemmas -/

theorem mem_sortByLabel (labelOf : PyStr → PyStr) (l : List PyStr) (p : PyStr) :
    p ∈ sortByLabel labelOf l ↔ p ∈ l :=
  (List.perm_insertionSort _ l).mem_iff

theorem toFinset_sortByLabel (labelOf : PyStr → PyStr) (l : List PyStr) :
    (sortByLabel labelOf l).toFinset = l.toFinset := by
  apply Finset.ext
  intro a
  simp [List.mem_toFinset, mem_sortByLabel]

theorem sortByLabel_singleton (labelOf : PyStr → PyStr) (x : PyStr) :
    sortByLabel labelOf [x] = [x] := rfl

/-! ## C9: knowledge-graph rebuild states -/

theorem ekgStatesAux_spec [DecidableEq α] (schemas : List (Finset α)) :
    ∀ acc : Finset α,
      (∀ g ∈ ekgStatesAux acc schemas,
        ∃ k, k ≤ schemas.length ∧ g = (schemas.take k).foldl (· ∪ ·) acc) ∧
      (ekgStatesAux acc schemas).getLast? =
        some (schemas.foldl (· ∪ ·) acc) := by
  induction schemas with
  | nil =>
    intro acc
    constructor
    · intro g hg
      simp only [ekgStatesAux, List.mem_singleton] at hg
      exact ⟨0, by simp, by simp [hg]⟩
    · simp [ekgStatesAux]
  | cons s rest ih =>
    intro acc
    constructor
    · intro g hg
      simp only [ekgStatesAux, List.mem_cons] at hg
      rcases hg with h | h
      · exact ⟨0, by simp, by simp [h]⟩
      · rcases (ih (acc ∪ s)).1 g h with ⟨k, hk, hg2⟩
        refine ⟨k + 1, by simpa using hk, ?_⟩
        simpa using hg2
    · have h2 := (ih (acc ∪ s)).2
      have hne : ekgStatesAux (acc ∪ s) rest ≠ [] := by
        cases rest <;> simp [ekgStatesAux]
      show (acc :: ekgStatesAux (acc ∪ s) rest).getLast? = _
      rcases h4 : ekgStatesAux (acc ∪ s) rest with _ | ⟨b, t⟩
      · exact absurd h4 hne
      · rw [List.getLast?_cons_cons, ← h4, h2]
        simp

/-- Claim C9 (counterexample): with old graph `numbered 0` and two schemas to
ingest, the shared reference passes through a state (the freshly assigned
empty graph) that is neither the complete old graph nor the complete new
graph, so a concurrent reader is not limited to fully-old/fully-new. -/
theorem c9_counterexample :
    ∃ g ∈ ekgRebuildStates ({0} : Finset ℕ) [{1}, {2}],
      g ≠ {0} ∧ g ≠ ekgFinal [({1} : Finset ℕ), {2}] := by decide

/-- Claim C9 (amended): during a rebuild the shared knowledge-graph
reference takes, besides the old graph, the value of every prefix union of
the ingested schemas (starting with the empty graph), and its final value
is the full union; a concurrent reader can therefore observe the empty or a
partially rebuilt graph, not only fully-old or fully-new. -/
theorem c9_ekg_rebuild_states [DecidableEq α] (old : Finset α)
    (schemas : List (Finset α)) :
    (∀ g ∈ ekgRebuildStates old schemas,
      g = old ∨ ∃ k, k ≤ schemas.length ∧ g = ekgFinal (schemas.take k)) ∧
    (ekgRebuildStates old schemas).getLast? = some (ekgFinal schemas) := by
  have hne : ∀ acc : Finset α, ekgStatesAux acc schemas ≠ [] := by
    intro acc
    cases schemas <;> simp [ekgStatesAux]
  constructor
  · intro g hg
    rcases List.mem_cons.mp hg with h | h
    · exact Or.inl h
    · exact Or.inr ((ekgStatesAux_spec schemas ∅).1 g h)
  · show (old :: ekgStatesAux ∅ schemas).getLast? = _
    rcases h4 : ekgStatesAux ∅ schemas with _ | ⟨b, t⟩
    · exact absurd h4 (hne ∅)
    · rw [List.getLast?_cons_cons, ← h4, (ekgStatesAux_spec schemas ∅).2]
      rfl

/-- Witness for C9: the amended theorem applied to the concrete rebuild of
the counterexample, at the first partially rebuilt state. -/
theorem c9_witness :
    ({1} : Finset ℕ) = {0} ∨
      ∃ k, k ≤ 2 ∧ ({1} : Finset ℕ) = ekgFinal ([{1}, {2}].take k) :=
  (c9_ekg_rebuild_states ({0} : Finset ℕ) [{1}, {2}]).1 {1} (by decide)

/-! ## C8: is_required / is_array -/

/-- Claim C8 (counterexample): on a graph giving P8 two sh:minCount
constraints (values 1 and 2), a minCount constraint with value at least 1
exists, yet `is_required` returns false, refuting the claimed
equivalence. -/
theorem c8_counterexample :
    is_required fixtureG8 propP8 = some false ∧
    ∃ c ∈ get_constraints fixtureG8 propP8,
      c.1 = SH_MINCOUNT_IRI ∧ ∃ n, pyInt c.2 = some n ∧ 1 ≤ n :=
  ⟨by decide,
    ⟨(SH_MINCOUNT_IRI, pys "1"), by decide, rfl, 1, by decide, by decide⟩⟩

/-- Claim C8 (amended): `is_required()` returns true iff the property's
distinct SHACL constraint list contains exactly one constraint whose IRI
ends case-insensitively in "mincount" and that constraint's integer value
is at least 1; `is_array()` analogously for "maxcount" and value greater
than 1. -/
theorem c8_required_array_exact (g : RdfGraph) (p : PyStr) :
    (is_required g p = some true ↔
      ∃ c, minCountConstraints g p = [c] ∧ ∃ n, pyInt c.2 = some n ∧ 1 ≤ n) ∧
    (is_array g p = some true ↔
      ∃ c, maxCountConstraints g p = [c] ∧ ∃ n, pyInt c.2 = some n ∧ 1 < n) := by
  constructor
  · rcases h : minCountConstraints g p with _ | ⟨c, _ | ⟨d, t⟩⟩
    · simp [is_required, h]
    · rcases hp : pyInt c.2 with _ | n
      · simp [is_required, h, hp]
      · simp [is_required, h, hp]
    · simp [is_required, h]
  · rcases h : maxCountConstraints g p with _ | ⟨c, _ | ⟨d, t⟩⟩
    · simp [is_array, h]
    · rcases hp : pyInt c.2 with _ | n
      · simp [is_array, h, hp]
      · simp [is_array, h, hp]
    · simp [is_array, h]

/-! ## C6: inference validation dispatch -/

/-- Claim C6 (code bug): on a data graph referencing two distinct non-ignored
schema IRIs, `validate_infer_model` infers both IRIs but then dispatches a
single validation against only the last one (the leaked loop variable `s`),
instead of producing one report per inferred schema keyed by its IRI. -/
theorem c6_infer_single_dispatch :
    validate_infer_schemas IGNORE_DEFAULTS fixtureD6 =
      [pys "http://127.0.0.1:8000/s1#i", pys "http://127.0.0.1:8000/s2#p"] ∧
    validate_infer_target IGNORE_DEFAULTS fixtureD6 =
      some (pys "http://127.0.0.1:8000/s2#p") ∧
    pys "http://127.0.0.1:8000/s1#i" ≠ pys "http://127.0.0.1:8000/s2#p" :=
  ⟨by decide, by decide, by decide⟩

/-! ## C3: entries without an explicit q -/

/-- Claim C3 (counterexample): the entry `text/html;level=1` carries a
parameter but no q parameter; it books nothing and the ranked list for a
header consisting of it alone is empty, so the entry is dropped rather than
ranked at q = 1.0. -/
theorem c3_counterexample :
    entryPairs (pys "text/html;level=1") = some [] ∧
    get_ranked_mime_types (some (pys "text/html;level=1")) = some [] :=
  ⟨by decide, by decide⟩

/-! ## C4: shape inheritance scenario -/

theorem c4_own (labelOf : PyStr → PyStr) :
    nodeShape_shacl_properties fixtureG4 labelOf shapeB = [prP4] := by
  have e5 : queryObjects fixtureG4 shapeB SH_PROPERTY_IRI = [prP4] := by decide
  rw [nodeShape_shacl_properties, e5, sortByLabel_singleton]

theorem c4_inherited (labelOf : PyStr → PyStr) :
    get_inherited_shacl_properties fixtureG4 labelOf shapeB =
      sortByLabel labelOf [prP1, prP2, prP3] := by
  have e1 : queryObjects fixtureG4 shapeB SH_TARGETCLASS_IRI = [nsY] := by decide
  have e2 : closureAux fixtureG4 (fixtureG4.length + 1) [] [nsY] = [nsX] := by
    decide
  have e3 : querySubjects fixtureG4 SH_TARGETCLASS_IRI nsX = [shapeA] := by
    decide
  have e4 : queryObjects fixtureG4 shapeA SH_PROPERTY_IRI =
      [prP1, prP2, prP3] := by decide
  have hcls : nodeShape_classes fixtureG4 labelOf shapeB = [nsY] := by
    rw [nodeShape_classes, e1, sortByLabel_singleton]
  have hsup : class_superclasses fixtureG4 labelOf nsY true = [nsX] := by
    rw [class_superclasses]
    simp only [if_true]
    rw [e2, sortByLabel_singleton]
  have hns : class_nodeshapes fixtureG4 labelOf nsX = [shapeA] := by
    rw [class_nodeshapes, e3, sortByLabel_singleton]
  have hd : dedupFirst [nsX] = [nsX] := by decide
  simp only [get_inherited_shacl_properties, hcls, hsup, hns,
    List.flatMap_cons, List.flatMap_nil, List.append_nil, hd]
  rw [nodeShape_shacl_properties, e4]

/-- Claim C4: in the inheritance scenario (NodeShape A targets X with P1-P3,
Y is a subclass of X, NodeShape B targets Y with P4), the effective property
set of B — own `get_shacl_properties` plus
`get_inherited_shacl_properties` — is exactly P1, P2, P3, P4, and each of
them is required (declared with minCount 1); this holds for any display
labelling used as the sort key. -/
theorem c4_inheritance_closure (labelOf : PyStr → PyStr) :
    (nodeShape_shacl_properties fixtureG4 labelOf shapeB ++
        get_inherited_shacl_properties fixtureG4 labelOf shapeB).toFinset =
      {prP1, prP2, prP3, prP4} ∧
    ∀ p ∈ nodeShape_shacl_properties fixtureG4 labelOf shapeB ++
        get_inherited_shacl_properties fixtureG4 labelOf shapeB,
      is_required fixtureG4 p = some true := by
  constructor
  · rw [c4_own, c4_inherited, List.toFinset_append, toFinset_sortByLabel]
    decide
  · intro p hp
    rw [c4_own, c4_inherited] at hp
    rcases List.mem_append.mp hp with h | h
    · rw [List.mem_singleton.mp h]
      decide
    · have h2 := (mem_sortByLabel _ _ _).mp h
      simp only [List.mem_cons, List.not_mem_nil, or_false] at h2
      rcases h2 with h2 | h2 | h2 <;> rw [h2] <;> decide

/-- Witness for C4: the scenario theorem applied with the identity
labelling, at property shape P1. -/
theorem c4_witness : is_required fixtureG4 prP1 = some true :=
  (c4_inheritance_closure (fun l => l)).2 prP1 (by decide)

/-! ## C5: conflicting property detection -/

theorem firstDup_of_count (l : List PyStr) (q : PyStr)
    (h : 2 ≤ l.count q) : ∃ d, firstDup l = some d ∧ 2 ≤ l.count d := by
  induction l with
  | nil => simp at h
  | cons x xs ih =>
    by_cases hx : x ∈ xs
    · refine ⟨x, by simp [firstDup, hx], ?_⟩
      have h1 : 0 < xs.count x := List.count_pos_iff.mpr hx
      have h2 : (x :: xs).count x = xs.count x + 1 := List.count_cons_self x xs
      omega
    · by_cases hqx : q = x
      · subst hqx
        have h0 : xs.count q = 0 := List.count_eq_zero.mpr hx
        have h2 : (q :: xs).count q = xs.count q + 1 := List.count_cons_self q xs
        omega
      · have h2 : (x :: xs).count q = xs.count q := by
          have hne2 : ¬ ((x == q) = true) := by
            simp only [beq_iff_eq]
            exact fun hh => hqx hh.symm
          rw [List.count_cons, if_neg hne2, Nat.add_zero]
        rcases ih (by omega) with ⟨d, hd1, hd2⟩
        refine ⟨d, by simp [firstDup, hx, hd1], ?_⟩
        have h3 := List.count_cons d x xs
        by_cases hdx : (x == d) = true
        · rw [if_pos hdx] at h3
          omega
        · rw [if_neg hdx] at h3
          omega

/-- Claim C5: whenever the effective (own + inherited) property set of a
NodeShape contains two property shapes resolving to the same target
property IRI, the modelled JSON-Schema renderer raises
ConflictingPropertyException naming an offending (duplicated) property —
never returning a rendered schema — and `get_schema` surfaces that
exception as an HTTP 422 response carrying the message. -/
theorem c5_conflict_surfaces_as_422 :
    (∀ (g : RdfGraph) (labelOf : PyStr → PyStr)
        (okRender : List PyStr → PyStr) (shape q : PyStr),
      2 ≤ (effectiveTargets g labelOf shape).count q →
      ∃ d, 2 ≤ (effectiveTargets g labelOf shape).count d ∧
        render_nodeshape_jsonschema g labelOf okRender shape =
          Except.error (conflictMsg d)) ∧
    (∀ (env : ConvertEnv) (mimeDefault : PyStr) (isFile : PyStr → Bool)
        (contentDir : PyStr) (fileContent : PyStr → PyStr)
        (accept : Option PyStr) (path m f : PyStr),
      env.jsonschema path = Except.error m →
      negotiate mimeDefault accept = some MIME_JSONSCHEMA →
      map_filename isFile contentDir path = some f →
      f ∉ env.badKeys →
      path ≠ [] →
      pyEndsWith (pys "/") path = false →
      get_schema env mimeDefault isFile contentDir fileContent path accept =
          GetSchemaResult.conflict m ∧
        statusCode (GetSchemaResult.conflict m) = 422) := by
  constructor
  · intro g labelOf okRender shape q h
    rcases firstDup_of_count _ _ h with ⟨d, hd1, hd2⟩
    exact ⟨d, hd2, by rw [render_nodeshape_jsonschema, hd1]⟩
  · intro env mimeDefault isFile contentDir fileContent accept path m f
      hjs hneg hmap hbad hne hsl
    have d1 : ¬ (MIME_JSONSCHEMA = MIME_HTML) := by decide
    have d2 : ¬ (MIME_JSONSCHEMA = MIME_JSONLD) := by decide
    have d3 : ¬ (MIME_JSONSCHEMA = MIME_TTL) := by decide
    refine ⟨?_, rfl⟩
    have hconv : convert env path f (fileContent f) MIME_JSONSCHEMA =
        Except.error (ConvertErr.conflict m) := by
      unfold convert
      rw [if_neg hbad, if_neg d1, if_neg d2, if_neg d3,
        if_pos (Or.inl rfl), hjs]
    have hres : resolve env mimeDefault isFile contentDir fileContent
        accept path = some (Except.error (ConvertErr.conflict m)) := by
      unfold resolve
      rw [hneg]
      simp only [Option.map_some', hmap, hconv]
    unfold get_schema
    rw [if_neg hne]
    have hsp : (if pyEndsWith (pys "/") path = true
        then path.take (path.length - 1) else path) = path := by
      rw [hsl]
      simp
    simp only [hsp, hres]

/-- Witness for C5: the theorem applied to the concrete conflict scenario
(two property shapes of NodeShape B with the same sh:path) and to the
server pipeline resolving `x` to the sole existing file with an
application/schema+json accept header. -/
theorem c5_witness :
    (∃ d : PyStr, 2 ≤ (effectiveTargets fixtureG5 (fun l => l) shapeB).count d ∧
      render_nodeshape_jsonschema fixtureG5 (fun l => l) (fun _ => pys "")
        shapeB = Except.error (conflictMsg d)) ∧
    get_schema fixtureEnvConflict (pys "text/plain") fixtureFs (pys "./")
        (fun _ => pys "") (pys "x")
        (some (pys "application/schema+json")) =
      GetSchemaResult.conflict (conflictMsg targetP) :=
  ⟨c5_conflict_surfaces_as_422.1 fixtureG5 (fun l => l) (fun _ => pys "")
      shapeB targetP (by decide),
    (c5_conflict_surfaces_as_422.2 fixtureEnvConflict (pys "text/plain")
      fixtureFs (pys "./") (fun _ => pys "") (some (pys "application/schema+json"))
      (pys "x") (conflictMsg targetP) (pys "./x.ttl") rfl (by decide)
      (by decide) (by decide) (by decide) (by decide)).1⟩

/-! ## C7: bad-schema quarantine lifecycle -/

theorem dictHasKey_append_single (bad : List (PyStr × PyStr)) (g f : PyStr)
    (m : PyStr) (hgf : g ≠ f) :
    dictHasKey (bad ++ [(g, m)]) f = dictHasKey bad f := by
  simp [dictHasKey, List.any_append, hgf]

theorem dictHasKey_dictDel (bad : List (PyStr × PyStr)) (g f : PyStr)
    (hgf : g ≠ f) :
    dictHasKey (dictDel bad g) f = dictHasKey bad f := by
  induction bad with
  | nil => rfl
  | cons e rest ih =>
    simp only [dictHasKey] at ih ⊢
    by_cases he : e.1 = g
    · have hef : (decide (e.1 = f)) = false := by
        simp [he]
        exact hgf
      have h1 : dictDel (e :: rest) g = dictDel rest g := by
        simp [dictDel, he]
      rw [h1, ih, List.any_cons, hef, Bool.false_or]
    · have h1 : dictDel (e :: rest) g = e :: dictDel rest g := by
        simp [dictDel, he]
      rw [h1, List.any_cons, List.any_cons, ih]

theorem dictHasKey_dictDel_self (bad : List (PyStr × PyStr)) (f : PyStr) :
    dictHasKey (dictDel bad f) f = false := by
  induction bad with
  | nil => rfl
  | cons e rest ih =>
    by_cases he : e.1 = f
    · rw [show dictDel (e :: rest) f = dictDel rest f by simp [dictDel, he]]
      exact ih
    · rw [show dictDel (e :: rest) f = e :: dictDel rest f by simp [dictDel, he]]
      simpa [dictHasKey, he] using ih

theorem checkSchemaFile_hasKey_other (parse : PyStr → Option (List Triple))
    (parseErr : PyStr → PyStr) (baseUrl contentDir : PyStr)
    (bad : List (PyStr × PyStr)) (g f : PyStr) (hgf : g ≠ f) :
    dictHasKey (checkSchemaFile parse parseErr baseUrl contentDir bad g) f =
      dictHasKey bad f := by
  unfold checkSchemaFile
  rcases parse g with _ | triples <;> dsimp only
  · by_cases hk : dictHasKey bad g = true
    · simp [hk]
    · simp only [Bool.not_eq_true] at hk
      simp [hk, dictHasKey_append_single bad g f _ hgf]
  · by_cases hr : schemaRefersBack
        (provenancePath baseUrl contentDir g) triples = true
    · by_cases hk : dictHasKey bad g = true
      · simp [hr, hk, dictHasKey_dictDel bad g f hgf]
      · simp only [Bool.not_eq_true] at hk
        simp [hr, hk]
    · simp only [Bool.not_eq_true] at hr
      by_cases hk : dictHasKey bad g = true
      · simp [hr, hk]
      · simp only [Bool.not_eq_true] at hk
        simp [hr, hk, dictHasKey_append_single bad g f _ hgf]

theorem checkSchemaFile_hasKey_self (parse : PyStr → Option (List Triple))
    (parseErr : PyStr → PyStr) (baseUrl contentDir : PyStr)
    (bad : List (PyStr × PyStr)) (f : PyStr) :
    dictHasKey (checkSchemaFile parse parseErr baseUrl contentDir bad f) f =
      isBadSchema parse baseUrl contentDir f := by
  unfold checkSchemaFile isBadSchema
  rcases parse f with _ | triples <;> dsimp only
  · by_cases hk : dictHasKey bad f = true
    · rw [if_pos hk, hk]
    · rw [if_neg hk]
      simp only [Bool.not_eq_true] at hk
      simp [dictHasKey, List.any_append]
  · by_cases hr : schemaRefersBack
        (provenancePath baseUrl contentDir f) triples = true
    · rw [if_pos hr, hr]
      by_cases hk : dictHasKey bad f = true
      · rw [if_pos hk, dictHasKey_dictDel_self]
        rfl
      · rw [if_neg hk]
        simp only [Bool.not_eq_true] at hk
        rw [hk]
        rfl
    · rw [if_neg hr]
      simp only [Bool.not_eq_true] at hr
      rw [hr]
      by_cases hk : dictHasKey bad f = true
      · rw [if_pos hk, hk]
        rfl
      · rw [if_neg hk]
        simp [dictHasKey, List.any_append]

theorem fold_hasKey_not_mem (parse : PyStr → Option (List Triple))
    (parseErr : PyStr → PyStr) (baseUrl contentDir : PyStr) (f : PyStr) :
    ∀ (schemas : List PyStr) (bad : List (PyStr × PyStr)), f ∉ schemas →
      dictHasKey
        (perform_housekeeping_on parse parseErr baseUrl contentDir schemas bad)
        f = dictHasKey bad f := by
  intro schemas
  induction schemas with
  | nil => intro bad _; rfl
  | cons g rest ih =>
    intro bad hf
    have hgf : g ≠ f := fun h => hf (h ▸ List.mem_cons_self g rest)
    have hfr : f ∉ rest := fun h => hf (List.mem_cons_of_mem g h)
    show dictHasKey (perform_housekeeping_on parse parseErr baseUrl contentDir
      rest (checkSchemaFile parse parseErr baseUrl contentDir bad g)) f = _
    rw [ih _ hfr,
      checkSchemaFile_hasKey_other parse parseErr baseUrl contentDir bad g f hgf]

theorem fold_hasKey_mem (parse : PyStr → Option (List Triple))
    (parseErr : PyStr → PyStr) (baseUrl contentDir : PyStr) (f : PyStr) :
    ∀ (schemas : List PyStr) (bad : List (PyStr × PyStr)), f ∈ schemas →
      dictHasKey
        (perform_housekeeping_on parse parseErr baseUrl contentDir schemas bad)
        f = isBadSchema parse baseUrl contentDir f := by
  intro schemas
  induction schemas with
  | nil => intro bad h; simp at h
  | cons g rest ih =>
    intro bad h
    by_cases h2 : f ∈ rest
    · exact ih _ h2
    · have h1 : g = f := by
        rcases List.mem_cons.mp h with h1 | h1
        · exact h1.symm
        · exact absurd h1 h2
      subst h1
      show dictHasKey (perform_housekeeping_on parse parseErr baseUrl
        contentDir rest (checkSchemaFile parse parseErr baseUrl contentDir
          bad g)) g = _
      rw [fold_hasKey_not_mem parse parseErr baseUrl contentDir g rest _ h2,
        checkSchemaFile_hasKey_self]

/-- Claim C7: after a housekeeping pass, every processed schema file is a
key of the quarantine map exactly when it fails to parse or fails the
provenance check; in particular a previously quarantined file that now
passes both checks is removed on that pass. -/
theorem c7_quarantine_iff (parse : PyStr → Option (List Triple))
    (parseErr : PyStr → PyStr) (baseUrl contentDir : PyStr)
    (schemas : List PyStr) (bad : List (PyStr × PyStr)) (f : PyStr)
    (hf : f ∈ schemas) :
    (dictHasKey
        (perform_housekeeping_on parse parseErr baseUrl contentDir schemas bad)
        f = true ↔
      isBadSchema parse baseUrl contentDir f = true) ∧
    (isBadSchema parse baseUrl contentDir f = false →
      dictHasKey
        (perform_housekeeping_on parse parseErr baseUrl contentDir schemas bad)
        f = false) := by
  have h := fold_hasKey_mem parse parseErr baseUrl contentDir f schemas bad hf
  constructor
  · rw [h]
  · intro h2
    rw [h, h2]

/-- Witness for C7: in the concrete pass (good, alien and broken files, the
good one previously quarantined), the recovered good file is no longer
quarantined afterwards. -/
theorem c7_witness :
    dictHasKey
      (perform_housekeeping_on fixtureParse (fun _ => pys "parse error")
        (pys "http://127.0.0.1:8000/") (pys "./") fixtureSchemas fixtureBad)
      (pys "./good.ttl") = false :=
  (c7_quarantine_iff fixtureParse (fun _ => pys "parse error")
    (pys "http://127.0.0.1:8000/") (pys "./") fixtureSchemas fixtureBad
    (pys "./good.ttl") (by decide)).2 (by decide)

/-! ## C10: unhandled negotiated media type -/

/-- Claim C10 (counterexample): with the supported `text/turtle` configured
as default, the Accept header `TEXT/TURTLE` negotiates successfully but
case-preserved, yielding a media type outside the five `convert` handles;
the claimed "possible only when the configured default media type is itself
unsupported" is therefore false. -/
theorem c10_counterexample :
    negotiate MIME_TTL (some (pys "TEXT/TURTLE")) =
        some (pys "TEXT/TURTLE") ∧
    pys "TEXT/TURTLE" ∉
      [MIME_HTML, MIME_JSONLD, MIME_TTL, MIME_JSONSCHEMA, MIME_JSON] ∧
    MIME_TTL ∈ SUPPORTED_MIME_TYPES :=
  ⟨by decide, by decide, by decide⟩

/-- Claim C10 (amended): whenever the path maps to exactly one existing,
non-quarantined schema file but the negotiated media type is none of
text/html, application/ld+json, text/turtle, application/schema+json or
application/json — possible when the configured default is itself
unsupported, or when the matching Accept entry differs in letter case from
the canonical constants — `convert` returns None and the server responds
404 Schema-not-found although the schema exists. -/
theorem c10_unhandled_mime_404 (env : ConvertEnv) (mimeDefault : PyStr)
    (isFile : PyStr → Bool) (contentDir : PyStr)
    (fileContent : PyStr → PyStr) (accept : Option PyStr)
    (path mime f : PyStr)
    (hneg : negotiate mimeDefault accept = some mime)
    (hnot : mime ∉
      [MIME_HTML, MIME_JSONLD, MIME_TTL, MIME_JSONSCHEMA, MIME_JSON])
    (hmap : map_filename isFile contentDir path = some f)
    (hbad : f ∉ env.badKeys)
    (hne : path ≠ [])
    (hsl : pyEndsWith (pys "/") path = false) :
    convert env path f (fileContent f) mime = Except.ok none ∧
    get_schema env mimeDefault isFile contentDir fileContent path accept =
      GetSchemaResult.notFound (pys "Could not find schema " ++ path) ∧
    statusCode
      (get_schema env mimeDefault isFile contentDir fileContent path accept) =
      404 := by
  simp only [List.mem_cons, List.not_mem_nil, or_false, not_or] at hnot
  obtain ⟨d1, d2, d3, d4, d5⟩ := hnot
  have hconv : convert env path f (fileContent f) mime = Except.ok none := by
    unfold convert
    rw [if_neg hbad, if_neg d1, if_neg d2, if_neg d3,
      if_neg (not_or.mpr ⟨d4, d5⟩)]
  have hres : resolve env mimeDefault isFile contentDir fileContent
      accept path = some (Except.ok none) := by
    unfold resolve
    rw [hneg]
    simp only [Option.map_some', hmap, hconv]
  have hget : get_schema env mimeDefault isFile contentDir fileContent path
      accept = GetSchemaResult.notFound (pys "Could not find schema " ++ path) := by
    unfold get_schema
    rw [if_neg hne]
    have hsp : (if pyEndsWith (pys "/") path = true
        then path.take (path.length - 1) else path) = path := by
      rw [hsl]
      simp
    simp only [hsp, hres]
  exact ⟨hconv, hget, by rw [hget]; rfl⟩

/-- Witness for C10: an unsupported configured default (`text/plain`) with
no Accept header resolves the sole existing schema file yet yields 404. -/
theorem c10_witness :
    get_schema fixtureEnv (pys "text/plain") fixtureFs (pys "./")
        (fun _ => pys "c") (pys "x") none =
      GetSchemaResult.notFound (pys "Could not find schema " ++ pys "x") :=
  (c10_unhandled_mime_404 fixtureEnv (pys "text/plain") fixtureFs (pys "./")
    (fun _ => pys "c") none (pys "x") (pys "text/plain") (pys "./x.ttl")
    (by decide) (by decide) (by decide) (by decide) (by decide)
    (by decide)).2.1

/-! ## C1: path mapping determinism -/

theorem pyRfind_lt_length (c : Char) (l : PyStr) :
    ∀ i, pyRfind c l = some i → i < l.length := by
  induction l with
  | nil => intro i h; simp [pyRfind] at h
  | cons x xs ih =>
    intro i h
    rw [pyRfind] at h
    rcases h2 : pyRfind c xs with _ | j
    · rw [h2] at h
      by_cases hx : x = c
      · rw [if_pos hx] at h
        cases h
        simp
      · rw [if_neg hx] at h
        cases h
    · rw [h2] at h
      cases h
      have := ih j h2
      simp
      omega

theorem pyRfind_isSome (c : Char) (l : PyStr) (h : c ∈ l) :
    ∃ i, pyRfind c l = some i ∧ i < l.length := by
  have hsome : ∃ i, pyRfind c l = some i := by
    induction l with
    | nil => simp at h
    | cons x xs ih =>
      rw [pyRfind]
      rcases h2 : pyRfind c xs with _ | j
      · rcases List.mem_cons.mp h with hx | hxs
        · exact ⟨0, by rw [if_pos hx.symm]⟩
        · rcases ih hxs with ⟨i, hi⟩
          rw [h2] at hi
          cases hi
      · exact ⟨j + 1, rfl⟩
  rcases hsome with ⟨i, hi⟩
  exact ⟨i, hi, pyRfind_lt_length c l i hi⟩

theorem mem_suffixCandidates (isFile : PyStr → Bool) (base g : PyStr) :
    g ∈ suffixCandidates isFile base ↔
      ((g = base ++ SUFFIX_JSONLD ∨ g = base ++ SUFFIX_TTL) ∧
        isFile g = true) := by
  unfold suffixCandidates
  by_cases h1 : isFile (base ++ SUFFIX_JSONLD) = true <;>
    by_cases h2 : isFile (base ++ SUFFIX_TTL) = true
  · rw [if_pos h1, if_pos h2]
    simp only [List.mem_append, List.mem_singleton]
    constructor
    · intro h
      refine ⟨h, ?_⟩
      rcases h with h | h <;> (rw [h]; assumption)
    · exact And.left
  · rw [if_pos h1, if_neg h2, List.append_nil]
    simp only [List.mem_singleton]
    constructor
    · intro h
      exact ⟨Or.inl h, by rw [h]; exact h1⟩
    · rintro ⟨h | h, hf⟩
      · exact h
      · rw [h] at hf
        exact absurd hf h2
  · rw [if_neg h1, if_pos h2, List.nil_append]
    simp only [List.mem_singleton]
    constructor
    · intro h
      exact ⟨Or.inr h, by rw [h]; exact h2⟩
    · rintro ⟨h | h, hf⟩
      · rw [h] at hf
        exact absurd hf h1
      · exact h
  · rw [if_neg h1, if_neg h2, List.append_nil]
    simp only [List.not_mem_nil, false_iff, not_and]
    rintro (h | h) <;> (rw [h]; intro hf)
    · exact absurd hf h1
    · exact absurd hf h2

theorem full_ne_pruned (full s s' : PyStr) (hfull : '/' ∈ full)
    (hs : s ∈ SUPPORTED_SUFFIXES) (hs' : s' ∈ SUPPORTED_SUFFIXES) :
    full ++ s ≠ prunedPath full ++ s' := by
  intro heq
  rcases pyRfind_isSome '/' full hfull with ⟨i, hi, hlt⟩
  have hpr : prunedPath full = full.take i := by rw [prunedPath, hi]
  rw [hpr] at heq
  have hlen := congrArg List.length heq
  rw [List.length_append, List.length_append, List.length_take,
    min_eq_left hlt.le] at hlen
  simp only [SUPPORTED_SUFFIXES, List.mem_cons, List.not_mem_nil,
    or_false] at hs hs'
  have lenJ : SUFFIX_JSONLD.length = 7 := by decide
  have lenT : SUFFIX_TTL.length = 4 := by decide
  rcases hs with rfl | rfl <;> rcases hs' with rfl | rfl
  · rw [lenJ] at hlen
    omega
  · rw [lenJ, lenT] at hlen
    omega
  · rw [lenT, lenJ] at hlen
    have htake : (List.take i full).length = i := by
      rw [List.length_take]
      omega
    have hdl := congrArg (List.drop i) heq
    rw [List.drop_append_of_le_length hlt.le, List.drop_left' htake] at hdl
    have hxlen : (List.drop i full).length = 3 := by
      rw [List.length_drop]
      omega
    have hdl2 := congrArg (List.drop 3) hdl
    rw [List.drop_left' hxlen] at hdl2
    exact absurd hdl2 (by decide)
  · rw [lenT] at hlen
    omega


/-- Claim C1: (a) a schema path naming an existing schema file is mapped to
exactly that file when no second, physically distinct candidate file exists
for it; (b) whenever two physically distinct candidate files exist — from
the path itself or from the path with its last segment stripped, with
either supported suffix — `map_filename` returns None, never an arbitrary
pick.  The content root contains a slash, as the server guarantees by
construction. -/
theorem c1_map_filename_determinism :
    (∀ (isFile : PyStr → Bool) (contentDir path suffix f : PyStr),
      suffix ∈ SUPPORTED_SUFFIXES →
      f = contentDir ++ path ++ suffix →
      isFile f = true →
      '/' ∈ contentDir →
      (∀ g₁ ∈ allCandidates isFile contentDir path,
        ∀ g₂ ∈ allCandidates isFile contentDir path, g₁ = g₂) →
      map_filename isFile contentDir path = some f) ∧
    (∀ (isFile : PyStr → Bool) (contentDir path g₁ g₂ : PyStr),
      g₁ ∈ allCandidates isFile contentDir path →
      g₂ ∈ allCandidates isFile contentDir path →
      g₁ ≠ g₂ →
      map_filename isFile contentDir path = none) := by
  constructor
  · intro isFile contentDir path suffix f hsuf hf hfile hslash huniq
    have hAll : allCandidates isFile contentDir path =
        suffixCandidates isFile (contentDir ++ path) ++
          suffixCandidates isFile (prunedPath (contentDir ++ path)) := rfl
    have hfull : '/' ∈ contentDir ++ path :=
      List.mem_append.mpr (Or.inl hslash)
    have hfJ_or : f = (contentDir ++ path) ++ SUFFIX_JSONLD ∨
        f = (contentDir ++ path) ++ SUFFIX_TTL := by
      simp only [SUPPORTED_SUFFIXES, List.mem_cons, List.not_mem_nil,
        or_false] at hsuf
      rcases hsuf with rfl | rfl
      · exact Or.inl hf
      · exact Or.inr hf
    have hfmem : f ∈ suffixCandidates isFile (contentDir ++ path) :=
      (mem_suffixCandidates isFile (contentDir ++ path) f).mpr ⟨hfJ_or, hfile⟩
    have hfmemAll : f ∈ allCandidates isFile contentDir path := by
      rw [hAll]
      exact List.mem_append.mpr (Or.inl hfmem)
    have hpruneEmpty :
        suffixCandidates isFile (prunedPath (contentDir ++ path)) = [] := by
      rcases hemp : suffixCandidates isFile (prunedPath (contentDir ++ path))
        with _ | ⟨g, rest⟩
      · rfl
      · exfalso
        have hg : g ∈ suffixCandidates isFile
            (prunedPath (contentDir ++ path)) := by
          rw [hemp]
          exact List.mem_cons_self g rest
        have hgAll : g ∈ allCandidates isFile contentDir path := by
          rw [hAll]
          exact List.mem_append.mpr (Or.inr hg)
        have hgf : g = f := huniq g hgAll f hfmemAll
        rcases ((mem_suffixCandidates _ _ g).mp hg).1 with hgJ | hgT
        · exact full_ne_pruned (contentDir ++ path) suffix SUFFIX_JSONLD
            hfull hsuf (by simp [SUPPORTED_SUFFIXES])
            (by rw [← hf, ← hgf]; exact hgJ)
        · exact full_ne_pruned (contentDir ++ path) suffix SUFFIX_TTL
            hfull hsuf (by simp [SUPPORTED_SUFFIXES])
            (by rw [← hf, ← hgf]; exact hgT)
    have hfullSide : suffixCandidates isFile (contentDir ++ path) = [f] := by
      rcases hfJ_or with hfJ | hfT
      · have hT : ¬ isFile ((contentDir ++ path) ++ SUFFIX_TTL) = true := by
          intro hb
          have hmemT : (contentDir ++ path) ++ SUFFIX_TTL ∈
              allCandidates isFile contentDir path := by
            rw [hAll]
            refine List.mem_append.mpr (Or.inl ?_)
            exact (mem_suffixCandidates _ _ _).mpr ⟨Or.inr rfl, hb⟩
          have h5 := huniq _ hmemT f hfmemAll
          rw [hfJ] at h5
          have h6 := List.append_cancel_left h5
          exact absurd h6 (by decide)
        unfold suffixCandidates
        rw [if_pos (by rw [← hfJ]; exact hfile), if_neg hT,
          List.append_nil, hfJ]
      · have hJ : ¬ isFile ((contentDir ++ path) ++ SUFFIX_JSONLD) = true := by
          intro hb
          have hmemJ : (contentDir ++ path) ++ SUFFIX_JSONLD ∈
              allCandidates isFile contentDir path := by
            rw [hAll]
            refine List.mem_append.mpr (Or.inl ?_)
            exact (mem_suffixCandidates _ _ _).mpr ⟨Or.inl rfl, hb⟩
          have h5 := huniq _ hmemJ f hfmemAll
          rw [hfT] at h5
          have h6 := List.append_cancel_left h5
          exact absurd h6 (by decide)
        unfold suffixCandidates
        rw [if_neg hJ, List.nil_append, if_pos (by rw [← hfT]; exact hfile),
          hfT]
    unfold map_filename
    rw [hAll, hfullSide, hpruneEmpty, List.append_nil]
  · intro isFile contentDir path g₁ g₂ h1 h2 hne
    unfold map_filename
    rcases hc : allCandidates isFile contentDir path with _ | ⟨a, _ | ⟨b, l⟩⟩
    · rfl
    · rw [hc] at h1 h2
      simp only [List.mem_singleton] at h1 h2
      exact absurd (h1.trans h2.symm) hne
    · rfl

/-- Witness for C1: the file system holding only `./x.ttl` maps path `x` to
that file; adding `./x.jsonld` makes the mapping ambiguous and None. -/
theorem c1_witness :
    map_filename fixtureFs (pys "./") (pys "x") = some (pys "./x.ttl") ∧
    map_filename
      (fun l => decide (l = pys "./x.ttl" ∨ l = pys "./x.jsonld"))
      (pys "./") (pys "x") = none := by
  constructor
  · refine c1_map_filename_determinism.1 fixtureFs (pys "./") (pys "x")
      SUFFIX_TTL (pys "./x.ttl") (by decide) (by decide) (by decide)
      (by decide) ?_
    have hca : allCandidates fixtureFs (pys "./") (pys "x") =
        [pys "./x.ttl"] := by decide
    intro g₁ hg₁ g₂ hg₂
    rw [hca] at hg₁ hg₂
    rw [List.mem_singleton.mp hg₁, List.mem_singleton.mp hg₂]
  · refine c1_map_filename_determinism.2
      (fun l => decide (l = pys "./x.ttl" ∨ l = pys "./x.jsonld"))
      (pys "./") (pys "x") (pys "./x.jsonld") (pys "./x.ttl") ?_ ?_
      (by decide)
    · have hca : allCandidates
          (fun l => decide (l = pys "./x.ttl" ∨ l = pys "./x.jsonld"))
          (pys "./") (pys "x") = [pys "./x.jsonld", pys "./x.ttl"] := by
        decide
      rw [hca]
      decide
    · have hca : allCandidates
          (fun l => decide (l = pys "./x.ttl" ∨ l = pys "./x.jsonld"))
          (pys "./") (pys "x") = [pys "./x.jsonld", pys "./x.ttl"] := by
        decide
      rw [hca]
      decide

/-! ## C2 and C3: content negotiation ranking -/

theorem bucketGet_bucketAppend (bs : List (ℚ × List PyStr)) (q : ℚ)
    (m : PyStr) (r : ℚ) :
    bucketGet (bucketAppend bs q m) r =
      bucketGet bs r ++ (if r = q then [m] else []) := by
  induction bs with
  | nil =>
    by_cases hr : q = r
    · subst hr
      simp [bucketAppend, bucketGet]
    · rw [show bucketAppend [] q m = [(q, [m])] from rfl]
      rw [show bucketGet [(q, [m])] r = if q = r then [m] else bucketGet [] r
        from rfl]
      rw [if_neg hr, if_neg (fun h => hr h.symm)]
      rfl
  | cons e rest ih =>
    rcases e with ⟨k, v⟩
    by_cases hk : k = q
    · subst hk
      rw [show bucketAppend ((k, v) :: rest) k m = (k, v ++ [m]) :: rest
        from by simp [bucketAppend]]
      by_cases hr : k = r
      · subst hr
        simp [bucketGet]
      · rw [show bucketGet ((k, v ++ [m]) :: rest) r = bucketGet rest r
          from by simp [bucketGet, hr]]
        rw [show bucketGet ((k, v) :: rest) r = bucketGet rest r
          from by simp [bucketGet, hr]]
        rw [if_neg (fun h => hr h.symm), List.append_nil]
    · rw [show bucketAppend ((k, v) :: rest) q m =
          (k, v) :: bucketAppend rest q m from by simp [bucketAppend, hk]]
      by_cases hr : k = r
      · subst hr
        have hrq : ¬ (k = q) := hk
        rw [show bucketGet ((k, v) :: bucketAppend rest q m) k = v
          from by simp [bucketGet]]
        rw [show bucketGet ((k, v) :: rest) k = v from by simp [bucketGet]]
        rw [if_neg (fun h => hrq h), List.append_nil]
      · rw [show bucketGet ((k, v) :: bucketAppend rest q m) r =
            bucketGet (bucketAppend rest q m) r from by simp [bucketGet, hr]]
        rw [show bucketGet ((k, v) :: rest) r = bucketGet rest r
          from by simp [bucketGet, hr]]
        exact ih

theorem negotInv_qUpdate (st : NegotState) (pairs : List (PyStr × ℚ))
    (q : ℚ) (m : PyStr) (h : NegotInv st pairs) :
    NegotInv (qUpdate st q m) (pairs ++ [(m, q)]) := by
  obtain ⟨hnd, hmem, hbk⟩ := h
  refine ⟨?_, ?_, ?_⟩
  · show (if q ∈ st.weights then st.weights else st.weights ++ [q]).Nodup
    by_cases hq : q ∈ st.weights
    · rw [if_pos hq]
      exact hnd
    · rw [if_neg hq]
      simp [List.nodup_append, hnd, hq]
  · intro r
    show r ∈ (if q ∈ st.weights then st.weights else st.weights ++ [q]) ↔ _
    by_cases hq : q ∈ st.weights
    · rw [if_pos hq]
      constructor
      · intro hr
        rcases (hmem r).mp hr with ⟨m2, hm2⟩
        exact ⟨m2, List.mem_append.mpr (Or.inl hm2)⟩
      · rintro ⟨m2, hm2⟩
        rcases List.mem_append.mp hm2 with h2 | h2
        · exact (hmem r).mpr ⟨m2, h2⟩
        · simp only [List.mem_singleton, Prod.mk.injEq] at h2
          rw [h2.2]
          exact hq
    · rw [if_neg hq]
      constructor
      · intro hr
        rcases List.mem_append.mp hr with h2 | h2
        · rcases (hmem r).mp h2 with ⟨m2, hm2⟩
          exact ⟨m2, List.mem_append.mpr (Or.inl hm2)⟩
        · simp only [List.mem_singleton] at h2
          subst h2
          exact ⟨m, List.mem_append.mpr (Or.inr (by simp))⟩
      · rintro ⟨m2, hm2⟩
        rcases List.mem_append.mp hm2 with h2 | h2
        · exact List.mem_append.mpr (Or.inl ((hmem r).mpr ⟨m2, h2⟩))
        · simp only [List.mem_singleton, Prod.mk.injEq] at h2
          exact List.mem_append.mpr (Or.inr (by simp [h2.2]))
  · intro r
    show bucketGet (bucketAppend st.buckets q m) r = _
    rw [bucketGet_bucketAppend, hbk r, List.filter_append, List.map_append]
    congr 1
    by_cases hr : r = q
    · subst hr
      simp
    · rw [if_neg hr]
      have : ¬ (((m, q) : PyStr × ℚ).2 = r) := fun h2 => hr h2.symm
      simp [this]

theorem step_rel (mime0 k : PyStr) (st : NegotState)
    (acc pairs : List (PyStr × ℚ)) (h : NegotInv st (pairs ++ acc)) :
    OptRel (fun st2 acc2 => NegotInv st2 (pairs ++ acc2))
      (procStep mime0 st k) (pairStep mime0 acc k) := by
  unfold procStep pairStep
  by_cases hq : pyLower ((pySplit '=' k).headD []) = pys "q"
  · rw [if_pos hq, if_pos hq]
    rcases (pySplit '=' k).get? 1 with _ | qs <;> dsimp only
    · exact trivial
    · rcases pyFloat qs with _ | qv <;> dsimp only
      · exact trivial
      · show NegotInv (qUpdate st qv mime0) (pairs ++ (acc ++ [(mime0, qv)]))
        have h2 := negotInv_qUpdate st (pairs ++ acc) qv mime0 h
        rw [List.append_assoc] at h2
        exact h2
  · rw [if_neg hq, if_neg hq]
    exact h

theorem inner_fold (mime0 : PyStr) (parts : List PyStr) :
    ∀ (st : NegotState) (acc pairs : List (PyStr × ℚ)),
      NegotInv st (pairs ++ acc) →
      OptRel (fun st2 acc2 => NegotInv st2 (pairs ++ acc2))
        (parts.foldlM (procStep mime0) st)
        (parts.foldlM (pairStep mime0) acc) := by
  induction parts with
  | nil => intro st acc pairs h; exact h
  | cons k rest ih =>
    intro st acc pairs h
    have hstep := step_rel mime0 k st acc pairs h
    rw [List.foldlM_cons, List.foldlM_cons]
    rcases hp : procStep mime0 st k with _ | st2 <;>
      rcases hq2 : pairStep mime0 acc k with _ | acc2
    · exact trivial
    · rw [hp, hq2] at hstep
      exact hstep.elim
    · rw [hp, hq2] at hstep
      exact hstep.elim
    · rw [hp, hq2] at hstep
      exact ih st2 acc2 pairs hstep

theorem entry_step (raw : PyStr) (st : NegotState)
    (pairs : List (PyStr × ℚ)) (h : NegotInv st pairs) :
    OptRel (fun st2 ps => NegotInv st2 (pairs ++ ps))
      (processEntry st raw) (entryPairs raw) := by
  unfold processEntry entryPairs
  by_cases hc : (pySplit ';' (pyStrip raw)).headD [] = pyStrip raw
  · rw [if_pos hc, if_pos hc]
    exact negotInv_qUpdate st pairs 1 (pyStrip raw) h
  · rw [if_neg hc, if_neg hc]
    exact inner_fold _ _ st [] pairs (by rw [List.append_nil]; exact h)

theorem entries_fold (entries : List PyStr) :
    ∀ (st : NegotState) (pairs : List (PyStr × ℚ)), NegotInv st pairs →
      OptRel NegotInv
        (entries.foldlM processEntry st)
        (entries.foldlM
          (fun acc e => (entryPairs e).map (fun ps => acc ++ ps)) pairs) := by
  induction entries with
  | nil => intro st pairs h; exact h
  | cons e rest ih =>
    intro st pairs h
    have hstep := entry_step e st pairs h
    rw [List.foldlM_cons, List.foldlM_cons]
    rcases hp : processEntry st e with _ | st2 <;>
      rcases hq2 : entryPairs e with _ | ps
    · exact trivial
    · rw [hp, hq2] at hstep
      exact hstep.elim
    · rw [hp, hq2] at hstep
      exact hstep.elim
    · rw [hp, hq2] at hstep
      show OptRel NegotInv (rest.foldlM processEntry st2) _
      have hmap : (some ps).map (fun ps2 => pairs ++ ps2) >>=
          rest.foldlM (fun acc e => (entryPairs e).map (fun ps2 => acc ++ ps2)) =
          rest.foldlM (fun acc e => (entryPairs e).map (fun ps2 => acc ++ ps2))
            (pairs ++ ps) := rfl
      rw [hmap]
      exact ih st2 (pairs ++ ps) hstep

theorem foldl_append_flatMap (f : ℚ → List PyStr) :
    ∀ (ws : List ℚ) (acc : List PyStr),
      ws.foldl (fun a w => a ++ f w) acc = acc ++ ws.flatMap f := by
  intro ws
  induction ws with
  | nil => intro acc; simp
  | cons w rest ih =>
    intro acc
    rw [List.foldl_cons, ih, List.flatMap_cons, List.append_assoc]

theorem flatMap_congr_mem (l : List ℚ) (f g : ℚ → List PyStr)
    (h : ∀ x ∈ l, f x = g x) : l.flatMap f = l.flatMap g := by
  induction l with
  | nil => rfl
  | cons a rest ih =>
    rw [List.flatMap_cons, List.flatMap_cons, h a (List.mem_cons_self a rest),
      ih (fun x hx => h x (List.mem_cons_of_mem a hx))]

theorem ranked_grouped (accept : Option PyStr) (pairs : List (PyStr × ℚ))
    (h : parsePairs accept = some pairs) :
    ∃ ws : List ℚ, ws.Nodup ∧ ws.Sorted (· ≥ ·) ∧
      (∀ q, q ∈ ws ↔ ∃ m, (m, q) ∈ pairs) ∧
      get_ranked_mime_types accept = some (ws.flatMap
        (fun q => (pairs.filter (fun pr => pr.2 = q)).map Prod.fst)) := by
  have h0 : NegotInv ⟨[], []⟩ [] := by
    refine ⟨List.nodup_nil, ?_, ?_⟩ <;> intro q <;> simp [bucketGet]
  have hrel := entries_fold (pySplit ',' (accept.getD [])) ⟨[], []⟩ [] h0
  unfold parsePairs at h
  rw [h] at hrel
  rcases hst : (pySplit ',' (accept.getD [])).foldlM processEntry ⟨[], []⟩
    with _ | st
  · rw [hst] at hrel
    exact hrel.elim
  · rw [hst] at hrel
    obtain ⟨hnd, hmem, hbk⟩ := hrel
    refine ⟨st.weights.insertionSort (· ≥ ·), ?_, ?_, ?_, ?_⟩
    · exact ((List.perm_insertionSort _ _).nodup_iff).mpr hnd
    · exact List.sorted_insertionSort _ _
    · intro q
      rw [(List.perm_insertionSort _ _).mem_iff]
      exact hmem q
    · unfold get_ranked_mime_types
      rw [hst]
      dsimp only
      congr 1
      rw [foldl_append_flatMap (bucketGet st.buckets), List.nil_append]
      exact flatMap_congr_mem _ _ _ (fun q _ => hbk q)

theorem ranked_mem (accept : Option PyStr) (pairs : List (PyStr × ℚ))
    (h : parsePairs accept = some pairs) :
    ∃ r, get_ranked_mime_types accept = some r ∧
      ∀ m, m ∈ r ↔ ∃ q, (m, q) ∈ pairs := by
  rcases ranked_grouped accept pairs h with ⟨ws, hnd, hs, hmem, hrank⟩
  refine ⟨_, hrank, ?_⟩
  intro m
  rw [List.mem_flatMap]
  constructor
  · rintro ⟨q, hq, hm⟩
    rcases List.mem_map.mp hm with ⟨pr, hpr, hfst⟩
    rcases List.mem_filter.mp hpr with ⟨hpp, hsnd⟩
    simp only [decide_eq_true_eq] at hsnd
    refine ⟨q, ?_⟩
    have hpr2 : pr = (m, q) := Prod.ext hfst hsnd
    rw [← hpr2]
    exact hpp
  · rintro ⟨q, hq⟩
    refine ⟨q, (hmem q).mpr ⟨m, hq⟩, ?_⟩
    exact List.mem_map.mpr ⟨(m, q), List.mem_filter.mpr ⟨hq, by simp⟩, rfl⟩

/-- Claim C2: the ranked list groups the header's (media type, q) bookings
by strictly descending q-value, preserving header order inside each group
(each group is the order-preserving filter of the bookings); `negotiate`
returns the first ranked type whose lower-case form is supported, falling
back to the configured default; concretely, the header
`application/ld+json;q=0.5,text/turtle;q=0.8` negotiates to text/turtle and
both the empty and the absent accept header yield the default. -/
theorem c2_negotiation_ranking :
    (∀ (accept : Option PyStr) (pairs : List (PyStr × ℚ)),
      parsePairs accept = some pairs →
      ∃ ws : List ℚ, ws.Sorted (· > ·) ∧
        (∀ q, q ∈ ws ↔ ∃ m, (m, q) ∈ pairs) ∧
        get_ranked_mime_types accept = some (ws.flatMap
          (fun q => (pairs.filter (fun pr => pr.2 = q)).map Prod.fst))) ∧
    (∀ (mimeDefault : PyStr) (accept : Option PyStr) (r : List PyStr),
      get_ranked_mime_types accept = some r →
      negotiate mimeDefault accept = some
        ((r.find? (fun m => pyLower m ∈ SUPPORTED_MIME_TYPES)).getD
          mimeDefault)) ∧
    (∀ mimeDefault : PyStr,
      negotiate mimeDefault
          (some (pys "application/ld+json;q=0.5,text/turtle;q=0.8")) =
        some MIME_TTL ∧
      negotiate mimeDefault (some (pys "")) = some mimeDefault ∧
      negotiate mimeDefault none = some mimeDefault) := by
  refine ⟨?_, ?_, ?_⟩
  · intro accept pairs h
    rcases ranked_grouped accept pairs h with ⟨ws, hnd, hs, hmem, hrank⟩
    refine ⟨ws, ?_, hmem, hrank⟩
    exact (hs.and hnd).imp (fun h2 => lt_of_le_of_ne h2.1 (Ne.symm h2.2))
  · intro mimeDefault accept r h
    unfold negotiate find_preferred_mime
    rw [h]
    rfl
  · intro mimeDefault
    refine ⟨?_, ?_, ?_⟩
    · have h1 : find_preferred_mime
          (some (pys "application/ld+json;q=0.5,text/turtle;q=0.8")) =
          some (some MIME_TTL) := by with_unfolding_all rfl
      unfold negotiate
      rw [h1]
      rfl
    · have h2 : find_preferred_mime (some (pys "")) = some none := by
        with_unfolding_all rfl
      unfold negotiate
      rw [h2]
      rfl
    · have h3 : find_preferred_mime none = some none := by
        with_unfolding_all rfl
      unfold negotiate
      rw [h3]
      rfl

/-- Witness for C2: the grouping statement applied to the concrete header
of the claim. -/
theorem c2_witness :
    ∃ ws : List ℚ, ws.Sorted (· > ·) ∧
      (∀ q, q ∈ ws ↔ ∃ m, (m, q) ∈
        [(pys "application/ld+json", ((pyFloat (pys "0.5")).getD 0 : ℚ)),
          (pys "text/turtle", (pyFloat (pys "0.8")).getD 0)]) ∧
      get_ranked_mime_types
          (some (pys "application/ld+json;q=0.5,text/turtle;q=0.8")) =
        some (ws.flatMap (fun q =>
          (([(pys "application/ld+json", ((pyFloat (pys "0.5")).getD 0 : ℚ)),
            (pys "text/turtle", (pyFloat (pys "0.8")).getD 0)]).filter
              (fun pr => pr.2 = q)).map Prod.fst)) :=
  c2_negotiation_ranking.1
    (some (pys "application/ld+json;q=0.5,text/turtle;q=0.8")) _
    (by with_unfolding_all rfl)

theorem pairStep_all_skip (mime0 : PyStr) :
    ∀ (parts : List PyStr) (acc : List (PyStr × ℚ)),
      (∀ k ∈ parts, pyLower ((pySplit '=' k).headD []) ≠ pys "q") →
      parts.foldlM (pairStep mime0) acc = some acc := by
  intro parts
  induction parts with
  | nil => intro acc _; rfl
  | cons k rest ih =>
    intro acc hk
    rw [List.foldlM_cons]
    have h1 : pairStep mime0 acc k = some acc := by
      unfold pairStep
      rw [if_neg (hk k (List.mem_cons_self k rest))]
    rw [h1]
    exact ih acc (fun k2 hk2 => hk k2 (List.mem_cons_of_mem k hk2))

/-- Claim C3 (amended): a header entry with no parameters at all (no
semicolon) is booked at q = 1.0 and kept; an entry carrying parameters but
no explicit `q` parameter books nothing — it is dropped from the ranked
list rather than defaulted to q = 1.0; and a media type appears in the
ranked list exactly when some entry booked it under some q-value. -/
theorem c3_no_q_entries :
    (∀ raw : PyStr,
      (pySplit ';' (pyStrip raw)).headD [] = pyStrip raw →
      entryPairs raw = some [(pyStrip raw, 1)]) ∧
    (∀ raw : PyStr,
      (pySplit ';' (pyStrip raw)).headD [] ≠ pyStrip raw →
      (∀ k ∈ pySplit ';' (pyStrip raw),
        pyLower ((pySplit '=' k).headD []) ≠ pys "q") →
      entryPairs raw = some []) ∧
    (∀ (accept : Option PyStr) (pairs : List (PyStr × ℚ)),
      parsePairs accept = some pairs →
      ∃ r, get_ranked_mime_types accept = some r ∧
        ∀ m, m ∈ r ↔ ∃ q, (m, q) ∈ pairs) := by
  refine ⟨?_, ?_, ranked_mem⟩
  · intro raw h
    unfold entryPairs
    rw [if_pos h]
  · intro raw h hnq
    unfold entryPairs
    rw [if_neg h]
    exact pairStep_all_skip _ _ [] hnq

/-- Witness for C3: a bare entry is booked at q = 1.0 while the
parameterized entry `text/html;level=1` books nothing. -/
theorem c3_witness :
    entryPairs (pys "text/plain") = some [(pys "text/plain", 1)] ∧
    entryPairs (pys "text/html;level=1") = some [] :=
  ⟨c3_no_q_entries.1 (pys "text/plain") (by decide),
    c3_no_q_entries.2.1 (pys "text/html;level=1") (by decide) (by decide)⟩

end Shapiro
